import Mathlib

/-!
# A verification model of the bolt.diy event-log store

This file is a shallow embedding of the `LogStore` class (`app/lib/stores/logs.ts`
in the repository): a capacity-bounded in-memory map of log entries with
cookie persistence and read-side filtering.

Modelling conventions:
* JavaScript objects used as string-keyed records (`Record<string, LogEntry>`,
  `Record<string, any>`) are association lists `List (String × _)` in JS
  property order (all keys in this program contain a dash or a letter, so JS
  preserves insertion order; property update rewrites in place, fresh keys
  append).
* `LogEntry.timestamp` is an ISO-8601 string in the source, produced by
  `new Date().toISOString()` and always consumed through
  `new Date(ts).getTime()`.  The embedding carries the instant itself as a
  `Nat` (milliseconds); rendering to the persisted blob uses the decimal
  rendering of that number, which is injective and order-preserving exactly
  like the ISO rendering it abstracts.
* `Date.now()` and `Math.random().toString(36).substr(2, 9)` are external
  inputs; the embedding threads them as explicit `now` / `rand` arguments.
* JS numbers in this program are used integrally (durations, status codes);
  they are modelled as `Int`.
* A thrown JS exception is an `Except JsError` error value.  `JSON.stringify`
  throws on values containing reference cycles; a cyclic object graph is
  modelled by the `JSValue.cyclic` marker (an inductive value cannot literally
  contain a cycle, so the marker stands for any such unserializable subgraph).
* `JSON.parse` / `JSON.stringify` are modelled on the fragment of JSON that
  this program round-trips: objects, arrays, strings (with the quote and
  backslash escapes), integers, booleans and null, without insignificant
  whitespace.  `JSON.stringify(undefined)` is `undefined` (not a string),
  which the model renders as `Option.none`.
-/

/-- A JavaScript value that can appear in a `details` payload or in a parsed
JSON blob.  `cyclic` marks an object graph containing a reference cycle, on
which `JSON.stringify` throws a `TypeError`. -/
inductive JSValue where
  | null
  | bool (b : Bool)
  | num (n : Int)
  | str (s : String)
  | arr (xs : List JSValue)
  | obj (fields : List (String × JSValue))
  | cyclic

/-- Decimal digit test, as in the JSON number grammar. -/
def isDigitChar (c : Char) : Bool := '0' ≤ c && c ≤ '9'

/-- The decimal digit character for a value below ten. -/
def digitChar : Nat → Char
  | 0 => '0' | 1 => '1' | 2 => '2' | 3 => '3' | 4 => '4'
  | 5 => '5' | 6 => '6' | 7 => '7' | 8 => '8' | _ => '9'

/-- Numeric value of a decimal digit character. -/
def digitToNat (c : Char) : Nat := c.toNat - '0'.toNat

/-- Decimal rendering of a natural number, most significant digit first.
Fuel-indexed so that it is structurally recursive; `natChars` supplies
enough fuel. -/
def natCharsAux : Nat → Nat → List Char
  | 0, _ => []
  | f + 1, n => if n < 10 then [digitChar n] else natCharsAux f (n / 10) ++ [digitChar (n % 10)]

/-- Decimal rendering of a natural number (the JS rendering of an integral
number). -/
def natChars (n : Nat) : List Char := natCharsAux (n + 1) n

/-- Decimal rendering of an integer, as JS string conversion produces it. -/
def intChars : Int → List Char
  | Int.ofNat m => natChars m
  | Int.negSucc m => '-' :: natChars (m + 1)

/-- String form of a natural number. -/
def natString (n : Nat) : String := String.mk (natChars n)

/-- String form of an integer. -/
def intString (n : Int) : String := String.mk (intChars n)

/-- The maximal leading run of decimal digits of a character list, together
with the remainder. -/
def takeDigits : List Char → List Char × List Char
  | [] => ([], [])
  | c :: tl =>
    if isDigitChar c then
      let p := takeDigits tl
      (c :: p.1, p.2)
    else ([], c :: tl)

/-- Value of a digit run, most significant digit first. -/
def digitsToNat (ds : List Char) : Nat := ds.foldl (fun a c => a * 10 + digitToNat c) 0

/-- JSON string-body escaping: the quote and the backslash are escaped with a
backslash.  (JS additionally escapes control characters; the model passes
them through verbatim on both sides, which composes to the same identity.) -/
def escChars : List Char → List Char
  | [] => []
  | c :: tl =>
    if c = '"' ∨ c = '\\' then '\\' :: c :: escChars tl else c :: escChars tl

mutual

/-- `JSON.stringify` on a `JSValue`, as a character list; `none` models the
`TypeError` thrown on a cyclic object graph. -/
def serVal : JSValue → Option (List Char)
  | .null => some "null".data
  | .bool true => some "true".data
  | .bool false => some "false".data
  | .num n => some (intChars n)
  | .str s => some ('"' :: escChars s.data ++ ['"'])
  | .arr xs => (serArr xs).map (fun cs => '[' :: cs)
  | .obj fs => (serObj fs).map (fun cs => '\x7b' :: cs)
  | .cyclic => none

/-- Serialize array elements, emitting the separating commas and the closing
bracket. -/
def serArr : List JSValue → Option (List Char)
  | [] => some [']']
  | [x] => (serVal x).map (fun cs => cs ++ [']'])
  | x :: y :: tl => do
      let c ← serVal x
      let r ← serArr (y :: tl)
      return c ++ ',' :: r

/-- Serialize object members, emitting keys, colons, commas and the closing
brace. -/
def serObj : List (String × JSValue) → Option (List Char)
  | [] => some ['\x7d']
  | [(k, v)] => (serVal v).map (fun cs => '"' :: escChars k.data ++ '"' :: ':' :: cs ++ ['\x7d'])
  | (k, v) :: p :: tl => do
      let c ← serVal v
      let r ← serObj (p :: tl)
      return '"' :: escChars k.data ++ '"' :: ':' :: c ++ ',' :: r

end

/-- Parse a JSON string body up to the closing quote, undoing `escChars`.
Returns the decoded characters and the remainder after the quote. -/
def parseStrChars : List Char → Option (List Char × List Char)
  | [] => none
  | c :: rest =>
    if c = '"' then some ([], rest)
    else if c = '\\' then
      match rest with
      | [] => none
      | c2 :: rest2 => (parseStrChars rest2).map (fun p => (c2 :: p.1, p.2))
    else (parseStrChars rest).map (fun p => (c :: p.1, p.2))

mutual

/-- `JSON.parse`, fuel-indexed recursive descent on the fragment of JSON that
`serVal` emits.  `none` models a thrown `SyntaxError`. -/
def parseVal : Nat → List Char → Option (JSValue × List Char)
  | 0, _ => none
  | _ + 1, [] => none
  | f + 1, c :: cs =>
    if c = 'n' then
      match cs with
      | 'u' :: 'l' :: 'l' :: r => some (.null, r)
      | _ => none
    else if c = 't' then
      match cs with
      | 'r' :: 'u' :: 'e' :: r => some (.bool true, r)
      | _ => none
    else if c = 'f' then
      match cs with
      | 'a' :: 'l' :: 's' :: 'e' :: r => some (.bool false, r)
      | _ => none
    else if c = '"' then
      (parseStrChars cs).map (fun p => (.str (String.mk p.1), p.2))
    else if c = '-' then
      match cs with
      | d :: _ =>
        if isDigitChar d then
          let p := takeDigits cs
          some (.num (-(digitsToNat p.1 : Int)), p.2)
        else none
      | [] => none
    else if isDigitChar c then
      let p := takeDigits (c :: cs)
      some (.num (digitsToNat p.1), p.2)
    else if c = '[' then
      match cs with
      | ']' :: r => some (.arr [], r)
      | _ =>
        match parseArrItems f cs with
        | some (xs, r) => some (.arr xs, r)
        | none => none
    else if c = '\x7b' then
      match cs with
      | '\x7d' :: r => some (.obj [], r)
      | _ =>
        match parseObjItems f cs with
        | some (ps, r) => some (.obj ps, r)
        | none => none
    else none

/-- Parse one or more array elements up to and including the closing
bracket. -/
def parseArrItems : Nat → List Char → Option (List JSValue × List Char)
  | 0, _ => none
  | f + 1, cs =>
    match parseVal f cs with
    | none => none
    | some (v, r) =>
      match r with
      | ',' :: r1 =>
        match parseArrItems f r1 with
        | some (xs, r2) => some (v :: xs, r2)
        | none => none
      | ']' :: r1 => some ([v], r1)
      | _ => none

/-- Parse one or more object members up to and including the closing
brace. -/
def parseObjItems : Nat → List Char → Option (List (String × JSValue) × List Char)
  | 0, _ => none
  | f + 1, cs =>
    match cs with
    | '"' :: cs1 =>
      match parseStrChars cs1 with
      | none => none
      | some (k, r) =>
        match r with
        | ':' :: r1 =>
          match parseVal f r1 with
          | none => none
          | some (v, r2) =>
            match r2 with
            | ',' :: r3 =>
              match parseObjItems f r3 with
              | some (ps, r4) => some ((String.mk k, v) :: ps, r4)
              | none => none
            | '\x7d' :: r3 => some ([(String.mk k, v)], r3)
            | _ => none
        | _ => none
    | _ => none

end

/-- `JSON.parse` of a whole blob: the parser must consume the entire input. -/
def jsonParse (s : String) : Option JSValue :=
  match parseVal (s.data.length + 1) s.data with
  | some (v, []) => some v
  | _ => none

/-! ## The log store data model (`app/lib/stores/logs.ts`) -/

/-- `LogEntry['level']`. -/
inductive LogLevel where
  | info | warning | error | debug
deriving DecidableEq, Repr

/-- `LogEntry['category']`. -/
inductive LogCategory where
  | system | provider | user | error | api | auth | database | network
deriving DecidableEq, Repr

/-- The `LogEntry` interface.  `subCategory`, `duration` and `statusCode` are
optional fields of the interface; `addLog` constructs entries without them,
so they are `none` for every entry the logging API produces. -/
structure LogEntry where
  id : String
  timestamp : Nat
  level : LogLevel
  message : String
  details : Option (List (String × JSValue))
  category : LogCategory
  subCategory : Option String := none
  duration : Option Int := none
  statusCode : Option Int := none

/-- JS property update on a string-keyed record: an existing key is rewritten
in place, a fresh key is appended.  This is both `map.setKey` of the
nanostores map and a named-key assignment in an object literal. -/
def recordSet {α : Type} : List (String × α) → String → α → List (String × α)
  | [], k, v => [(k, v)]
  | (k1, v1) :: tl, k, v =>
    if k1 = k then (k, v) :: tl else (k1, v1) :: recordSet tl k v

/-- Iterated property assignment, as the trailing named keys of an object
literal after a spread. -/
def recordSetAll {α : Type} (m : List (String × α)) (kvs : List (String × α)) :
    List (String × α) :=
  kvs.foldl (fun acc p => recordSet acc p.1 p.2) m

/-- JS property lookup: the value of the first (and, for JS objects, only)
binding of the key. -/
def recordGet {α : Type} : List (String × α) → String → Option α
  | [], _ => none
  | (k1, v) :: tl, k => if k1 = k then some v else recordGet tl k

/-- The store state: the reactive map `_logs` (in JS property order), the
`eventLogs` cookie blob, and the `showLogs` atom. -/
structure LogState where
  logs : List (String × LogEntry)
  cookie : Option String
  showLogs : Bool

/-- A thrown JS exception (in this program always a `TypeError`). -/
inductive JsError where
  | typeError
deriving DecidableEq, Repr

/-- `const MAX_LOGS = 1000`. -/
def MAX_LOGS : Nat := 1000

/-- `_generateId`: `Date.now()` rendered in decimal, a dash, and the random
suffix. -/
def _generateId (now : Nat) (rand : String) : String :=
  natString now ++ "-" ++ rand

/-- The entry object `addLog` constructs. -/
def mkEntry (id : String) (now : Nat) (message : String) (level : LogLevel)
    (category : LogCategory) (details : Option (List (String × JSValue))) : LogEntry :=
  { id := id, timestamp := now, level := level, message := message,
    details := details, category := category }

/-- The sort order of `_trimLogs` on `Object.entries` pairs: `a` may precede
`b` when `b`'s timestamp is at most `a`'s (the comparator
`getTime(b) - getTime(a)` is then nonpositive).  JS `Array.prototype.sort`
is a stable sort, and for a consistent comparator every stable sort computes
the same list; the embedding uses stable insertion sort. -/
def entryPairLe (a b : String × LogEntry) : Prop :=
  b.2.timestamp ≤ a.2.timestamp

instance : DecidableRel entryPairLe := fun _ b => Nat.decLe b.2.timestamp _

instance : IsTotal (String × LogEntry) entryPairLe :=
  ⟨fun a b => Nat.le_total b.2.timestamp a.2.timestamp⟩

instance : IsTrans (String × LogEntry) entryPairLe :=
  ⟨fun _ _ _ h1 h2 => Nat.le_trans h2 h1⟩

/-- `_trimLogs`: when the map holds more than `MAX_LOGS` entries, sort the
entries newest-first (JS sort is stable) and keep the first `MAX_LOGS`. -/
def _trimLogs (logs : List (String × LogEntry)) : List (String × LogEntry) :=
  if MAX_LOGS < logs.length then (List.insertionSort entryPairLe logs).take MAX_LOGS
  else logs

/-- String form of a level, as serialized into the blob. -/
def levelString : LogLevel → String
  | .info => "info" | .warning => "warning" | .error => "error" | .debug => "debug"

/-- String form of a category, as serialized into the blob. -/
def categoryString : LogCategory → String
  | .system => "system" | .provider => "provider" | .user => "user"
  | .error => "error" | .api => "api" | .auth => "auth"
  | .database => "database" | .network => "network"

/-- The JSON image of a `LogEntry` under `JSON.stringify`: the properties the
object carries, in creation order; absent optional properties are
`undefined` in JS and are dropped by `JSON.stringify`. -/
def encodeEntry (e : LogEntry) : JSValue :=
  .obj ([("id", .str e.id), ("timestamp", .str (natString e.timestamp)),
         ("level", .str (levelString e.level)), ("message", .str e.message)]
    ++ (match e.details with | none => [] | some d => [("details", .obj d)])
    ++ [("category", .str (categoryString e.category))]
    ++ (match e.subCategory with | none => [] | some s => [("subCategory", .str s)])
    ++ (match e.duration with | none => [] | some n => [("duration", .num n)])
    ++ (match e.statusCode with | none => [] | some n => [("statusCode", .num n)]))

/-- The JSON image of the whole `_logs` map. -/
def encodeLogs (logs : List (String × LogEntry)) : JSValue :=
  .obj (logs.map (fun p => (p.1, encodeEntry p.2)))

/-- `_saveLogs`: serialize the current map and write it to the `eventLogs`
cookie.  `JSON.stringify` throws on an unserializable `details` payload; the
exception propagates and the cookie is left unchanged. -/
def _saveLogs (st : LogState) : Except JsError LogState :=
  match serVal (encodeLogs st.logs) with
  | some cs => .ok { st with cookie := some (String.mk cs) }
  | none => .error .typeError

/-- `addLog`: generate an id, insert the entry, trim, persist.  The map is
updated before persistence, so a persistence failure still leaves the entry
resident; the first component is the returned id, or the propagated
exception. -/
def addLog (st : LogState) (now : Nat) (rand : String) (message : String)
    (level : LogLevel := .info) (category : LogCategory := .system)
    (details : Option (List (String × JSValue)) := none) :
    Except JsError String × LogState :=
  let id := _generateId now rand
  let entry := mkEntry id now message level category details
  let st1 : LogState := { st with logs := _trimLogs (recordSet st.logs id entry) }
  match _saveLogs st1 with
  | .ok st2 => (.ok id, st2)
  | .error e => (.error e, st1)

/-- The message `logAPIRequest` formats. -/
def apiMessage (endpoint method : String) (duration statusCode : Int) : String :=
  method ++ " " ++ endpoint ++ " - " ++ intString statusCode
    ++ " (" ++ intString duration ++ "ms)"

/-- The level `logAPIRequest` derives from the status code. -/
def apiLevel (statusCode : Int) : LogLevel :=
  if 400 ≤ statusCode then .error else if 300 ≤ statusCode then .warning else .info

/-- The details object `logAPIRequest` builds: the caller's details spread
first, then the five named keys assigned in literal order. -/
def apiDetails (details : Option (List (String × JSValue)))
    (endpoint method : String) (duration statusCode : Int) (now : Nat) :
    List (String × JSValue) :=
  recordSetAll (details.getD [])
    [("endpoint", .str endpoint), ("method", .str method),
     ("duration", .num duration), ("statusCode", .num statusCode),
     ("timestamp", .str (natString now))]

/-- `logAPIRequest`. -/
def logAPIRequest (st : LogState) (now : Nat) (rand : String)
    (endpoint method : String) (duration statusCode : Int)
    (details : Option (List (String × JSValue)) := none) :
    Except JsError String × LogState :=
  addLog st now rand (apiMessage endpoint method duration statusCode)
    (apiLevel statusCode) .api (some (apiDetails details endpoint method duration statusCode now))

/-- The details object `logDatabase` builds. -/
def dbDetails (details : Option (List (String × JSValue)))
    (operation : String) (success : Bool) (duration : Int) (now : Nat) :
    List (String × JSValue) :=
  recordSetAll (details.getD [])
    [("operation", .str operation), ("success", .bool success),
     ("duration", .num duration), ("timestamp", .str (natString now))]

/-- `logDatabase`. -/
def logDatabase (st : LogState) (now : Nat) (rand : String)
    (operation : String) (success : Bool) (duration : Int)
    (details : Option (List (String × JSValue)) := none) :
    Except JsError String × LogState :=
  addLog st now rand
    ("DB " ++ operation ++ " - " ++ (if success then "Success" else "Failed")
      ++ " (" ++ intString duration ++ "ms)")
    (if success then .info else .error) .database
    (some (dbDetails details operation success duration now))

/-- The sort order of `getLogs` on entry values. -/
def entryLe (a b : LogEntry) : Prop :=
  b.timestamp ≤ a.timestamp

instance : DecidableRel entryLe := fun _ b => Nat.decLe b.timestamp _

instance : IsTotal LogEntry entryLe := ⟨fun a b => Nat.le_total b.timestamp a.timestamp⟩

instance : IsTrans LogEntry entryLe := ⟨fun _ _ _ h1 h2 => Nat.le_trans h2 h1⟩

/-- `getLogs`: the values of the map (`Object.values` yields a fresh array in
property order) sorted newest-first. -/
def getLogs (st : LogState) : List LogEntry :=
  List.insertionSort entryLe (st.logs.map Prod.snd)

/-- Case-insensitive lowering, as `toLowerCase`. -/
def lowerChars (l : List Char) : List Char := l.map Char.toLower

/-- Leading-match test for `charsContains`. -/
def isPrefChars : List Char → List Char → Bool
  | [], _ => true
  | _ :: _, [] => false
  | n :: ntl, h :: htl => n == h && isPrefChars ntl htl

/-- JS `String.prototype.includes`: the needle occurs somewhere in the
haystack. -/
def charsContains (haystack needle : List Char) : Bool :=
  match haystack with
  | [] => needle.isEmpty
  | _ :: tl => isPrefChars needle haystack || charsContains tl needle

/-- The `matchesSearch` conjunct of `getFilteredLogs` for one entry.  A
missing or empty query is falsy and matches.  Otherwise the message is
searched first; only when it does not match is `JSON.stringify(log.details)`
taken: for an absent `details` that is `undefined`, and the `.toLowerCase()`
call on it throws a `TypeError`, as does `JSON.stringify` itself on an
unserializable payload. -/
def matchesSearch (log : LogEntry) (searchQuery : Option String) :
    Except JsError Bool :=
  match searchQuery with
  | none => .ok true
  | some q =>
    if q.isEmpty then .ok true
    else if charsContains (lowerChars log.message.data) (lowerChars q.data) then .ok true
    else
      match log.details with
      | none => .error .typeError
      | some d =>
        match serVal (.obj d) with
        | none => .error .typeError
        | some cs => .ok (charsContains (lowerChars cs) (lowerChars q.data))

/-- The filter predicate of `getFilteredLogs` for one entry: all three
conjuncts are computed (the search conjunct can throw), then conjoined. -/
def filterPred (log : LogEntry) (level : Option LogLevel)
    (category : Option LogCategory) (searchQuery : Option String) :
    Except JsError Bool :=
  let matchesLevel :=
    match level with
    | none => true
    | some lv => decide (lv = .debug) || decide (log.level = lv)
  let matchesCategory :=
    match category with
    | none => true
    | some c => decide (log.category = c)
  match matchesSearch log searchQuery with
  | .error e => .error e
  | .ok ms => .ok (matchesLevel && matchesCategory && ms)

/-- `Array.prototype.filter` with a predicate that can throw: elements are
tested in order and the first exception aborts the call. -/
def filterExcept {ε α : Type} (p : α → Except ε Bool) : List α → Except ε (List α)
  | [] => .ok []
  | x :: tl =>
    match p x with
    | .error e => .error e
    | .ok b =>
      match filterExcept p tl with
      | .error e => .error e
      | .ok r => .ok (if b then x :: r else r)

/-- `getFilteredLogs`. -/
def getFilteredLogs (st : LogState) (level : Option LogLevel := none)
    (category : Option LogCategory := none) (searchQuery : Option String := none) :
    Except JsError (List LogEntry) :=
  filterExcept (fun log => filterPred log level category searchQuery) (getLogs st)

/-- String-to-level reading, the typed view of a level stored in a blob. -/
def levelOfString (s : String) : Option LogLevel :=
  if s = "info" then some .info else if s = "warning" then some .warning
  else if s = "error" then some .error else if s = "debug" then some .debug
  else none

/-- String-to-category reading, the typed view of a category stored in a
blob. -/
def categoryOfString (s : String) : Option LogCategory :=
  if s = "system" then some .system else if s = "provider" then some .provider
  else if s = "user" then some .user else if s = "error" then some .error
  else if s = "api" then some .api else if s = "auth" then some .auth
  else if s = "database" then some .database else if s = "network" then some .network
  else none

/-- Reading of a decimal numeral, the typed view of a persisted timestamp. -/
def natOfString (s : String) : Option Nat :=
  match s.data with
  | [] => none
  | cs => if cs.all isDigitChar then some (digitsToNat cs) else none

/-- The typed view of one parsed entry object.  The source language is
untyped and assigns the parsed object directly; the embedding reads the
fields back into the `LogEntry` record. -/
def decodeEntry (v : JSValue) : Option LogEntry :=
  match v with
  | .obj fs =>
    (recordGet fs "id").bind fun idv =>
    (match idv with | .str s => some s | _ => none).bind fun id =>
    (recordGet fs "timestamp").bind fun tsv =>
    (match tsv with | .str s => natOfString s | _ => none).bind fun ts =>
    (recordGet fs "level").bind fun lv =>
    (match lv with | .str s => levelOfString s | _ => none).bind fun level =>
    (recordGet fs "message").bind fun mv =>
    (match mv with | .str s => some s | _ => none).bind fun message =>
    (match recordGet fs "details" with
     | none => some none
     | some (.obj d) => some (some d)
     | some _ => none).bind fun details =>
    (recordGet fs "category").bind fun cv =>
    (match cv with | .str s => categoryOfString s | _ => none).bind fun category =>
    (match recordGet fs "subCategory" with
     | none => some none
     | some (.str s) => some (some s)
     | some _ => none).bind fun subCategory =>
    (match recordGet fs "duration" with
     | none => some none
     | some (.num n) => some (some n)
     | some _ => none).bind fun duration =>
    (match recordGet fs "statusCode" with
     | none => some none
     | some (.num n) => some (some n)
     | some _ => none).bind fun statusCode =>
    some { id := id, timestamp := ts, level := level, message := message,
           details := details, category := category, subCategory := subCategory,
           duration := duration, statusCode := statusCode }
  | _ => none

/-- The typed view of the members of a parsed blob object. -/
def decodeLogsList : List (String × JSValue) → Option (List (String × LogEntry))
  | [] => some []
  | p :: tl =>
    match decodeEntry p.2 with
    | none => none
    | some e =>
      match decodeLogsList tl with
      | none => none
      | some r => some ((p.1, e) :: r)

/-- The typed view of a whole parsed blob. -/
def decodeLogs (v : JSValue) : Option (List (String × LogEntry)) :=
  match v with
  | .obj fs => decodeLogsList fs
  | _ => none

/-- The store state a fresh `LogStore` starts from before `_loadLogs`. -/
def initialState (cookie : Option String) : LogState :=
  { logs := [], cookie := cookie, showLogs := true }

/-- `_loadLogs`, run by the constructor: read the `eventLogs` cookie and
parse it under the truthiness guard `if (savedLogs)`: a missing cookie and
an empty-string cookie are both falsy in JS, so they are skipped silently —
no parse is attempted and the store stays empty with no diagnostic.  For a
present non-empty cookie, a parse failure is caught, reported to the scoped
diagnostic logger (the returned message list) and swallowed.  A blob that
parses but does not describe an entry map is read as empty (the untyped
source would store it verbatim; no such blob is produced by `_saveLogs` nor
covered by a claim). -/
def _loadLogs (cookie : Option String) : LogState × List String :=
  match cookie with
  | none => (initialState none, [])
  | some s =>
    if s = "" then (initialState (some s), [])
    else
      match jsonParse s with
      | none => (initialState (some s), ["Failed to parse logs from cookies:"])
      | some v => ({ initialState (some s) with logs := (decodeLogs v).getD [] }, [])

/-- `clearLogs`: empty the map and persist (serializing the empty map cannot
fail, but the shape follows the source: mutate, then save). -/
def clearLogs (st : LogState) : Except JsError Unit × LogState :=
  let st1 : LogState := { st with logs := [] }
  match _saveLogs st1 with
  | .ok st2 => (.ok (), st2)
  | .error e => (.error e, st1)

/-! ## An operation-level view, for frame properties -/

/-- The public operations of the store, with their external inputs. -/
inductive Op where
  | addLog (now : Nat) (rand : String) (message : String) (level : LogLevel)
      (category : LogCategory) (details : Option (List (String × JSValue)))
  | clearLogs
  | getLogs
  | getFilteredLogs (level : Option LogLevel) (category : Option LogCategory)
      (searchQuery : Option String)

/-- What an operation returns to its caller. -/
inductive OpResult where
  | id (s : String)
  | unit
  | entries (l : List LogEntry)

/-- One public call against a store state: the caller-visible outcome and the
state the store is left in. -/
def runOp : Op → LogState → Except JsError OpResult × LogState
  | .addLog now rand message level category details, st =>
    let r := addLog st now rand message level category details
    (r.1.map OpResult.id, r.2)
  | .clearLogs, st =>
    let r := clearLogs st
    (r.1.map (fun _ => OpResult.unit), r.2)
  | .getLogs, st => (.ok (OpResult.entries (getLogs st)), st)
  | .getFilteredLogs level category searchQuery, st =>
    ((getFilteredLogs st level category searchQuery).map OpResult.entries, st)


/-- A character list that cannot extend a decimal numeral: empty or starting
with a non-digit.  Every suffix the serializer places after a number starts
with a delimiter, so the greedy digit scan of the parser stops exactly at
the numeral's end. -/
def boundaryB : List Char → Bool
  | [] => true
  | c :: _ => !(isDigitChar c)

/-- One `addLog` call with its external inputs. -/
structure AddCall where
  now : Nat
  rand : String
  message : String
  level : LogLevel
  category : LogCategory
  details : Option (List (String × JSValue))

/-- The id `addLog` generates for a call. -/
def idOfCall (c : AddCall) : String := _generateId c.now c.rand

/-- The entry `addLog` inserts for a call. -/
def entryOfCall (c : AddCall) : LogEntry :=
  mkEntry (idOfCall c) c.now c.message c.level c.category c.details

/-- The store state after one `addLog` call (the caller-visible result is
dropped; the map is updated whether or not persistence throws). -/
def addLogState (st : LogState) (c : AddCall) : LogState :=
  (addLog st c.now c.rand c.message c.level c.category c.details).2

/-- The store state after a sequence of `addLog` calls. -/
def runAddLogs (st : LogState) (calls : List AddCall) : LogState :=
  calls.foldl addLogState st

/-- The invariant carried through a run of `addLog` calls: the resident
count is the insertion count capped at `MAX_LOGS`; each binding's key is
its entry's id; keys are unique; and the inserted entries split into the
residents plus evicted entries, every evicted entry at most as recent as
every resident. -/
structure CapInv (inserted : List LogEntry) (st : LogState) : Prop where
  len : st.logs.length = min inserted.length MAX_LOGS
  keyId : ∀ p ∈ st.logs, p.1 = p.2.id
  nodupKeys : (st.logs.map Prod.fst).Nodup
  split : ∃ evicted, inserted.Perm (st.logs.map Prod.snd ++ evicted) ∧
    ∀ e ∈ st.logs.map Prod.snd, ∀ v ∈ evicted, v.timestamp ≤ e.timestamp

/-- The call the C1 witness makes at index `i`: distinct random suffixes
give distinct generated ids. -/
def capWitnessCall (i : Nat) : AddCall :=
  { now := 0, rand := String.mk (List.replicate i 'a'), message := "m",
    level := .info, category := .system, details := none }

/-- A concrete run of 1001 `addLog` calls. -/
def capacityWitnessCalls : List AddCall :=
  (List.range 1001).map capWitnessCall

/-- The store whose blob the C8 witness round-trips. -/
def c8WitnessState : LogState := (addLog (initialState none) 5 "abc" "hello").2

/-- The serialized blob of the C8 witness store. -/
def c8WitnessBlob : List Char := (serVal (encodeLogs c8WitnessState.logs)).getD []

/-! ## Shared lemmas -/

example : serVal (.arr [.num 1, .null]) = some "[1,null]".data := rfl
example : serVal (.obj [("a", .str "x\"y")]) = some "\x7b\"a\":\"x\\\"y\"\x7d".data := rfl
example : jsonParse "\x7b\"a\":[1,-20,true]\x7d" = some (.obj [("a", .arr [.num 1, .num (-20), .bool true])]) := rfl
example : jsonParse "not json" = none := rfl
example : serVal (.obj [("a", .cyclic)]) = none := rfl

example :
    (addLog (initialState none) 5 "abc" "hello").2.logs =
      [("5-abc", mkEntry "5-abc" 5 "hello" .info .system none)] := rfl
example :
    (addLog (initialState none) 5 "abc" "hello").2.cookie =
      some "\x7b\"5-abc\":\x7b\"id\":\"5-abc\",\"timestamp\":\"5\",\"level\":\"info\",\"message\":\"hello\",\"category\":\"system\"\x7d\x7d" := rfl



/-- The specification of `_trimLogs` past the bound: exactly `MAX_LOGS`
survivors, the survivors together with the dropped entries are a permutation
of the input, and every dropped entry is at most as recent as every
survivor. -/
theorem trimLogs_spec (logs : List (String × LogEntry)) (h : MAX_LOGS < logs.length) :
    (_trimLogs logs).length = MAX_LOGS ∧
    ∃ dropped, logs.Perm (_trimLogs logs ++ dropped) ∧
      ∀ p ∈ _trimLogs logs, ∀ q ∈ dropped, q.2.timestamp ≤ p.2.timestamp := by
  unfold _trimLogs
  rw [if_pos h]
  have hperm := List.perm_insertionSort entryPairLe logs
  have hlen : (List.insertionSort entryPairLe logs).length = logs.length := hperm.length_eq
  refine ⟨by rw [List.length_take, hlen]; omega,
    (List.insertionSort entryPairLe logs).drop MAX_LOGS, ?_, ?_⟩
  · rw [List.take_append_drop]
    exact hperm.symm
  · intro p hp q hq
    have hs : (List.insertionSort entryPairLe logs).Sorted entryPairLe :=
      List.sorted_insertionSort entryPairLe logs
    exact hs.rel_of_mem_take_of_mem_drop hp hq

theorem trimLogs_of_le (logs : List (String × LogEntry)) (h : logs.length ≤ MAX_LOGS) :
    _trimLogs logs = logs := by
  unfold _trimLogs
  rw [if_neg (by omega)]

theorem recordSet_of_not_mem {α : Type} (m : List (String × α)) (k : String) (v : α)
    (h : k ∉ m.map Prod.fst) : recordSet m k v = m ++ [(k, v)] := by
  induction m with
  | nil => rfl
  | cons p tl ih =>
    obtain ⟨k1, v1⟩ := p
    simp only [List.map_cons, List.mem_cons] at h
    push_neg at h
    simp only [recordSet, if_neg (fun hk : k1 = k => h.1 hk.symm), List.cons_append,
      List.cons.injEq, true_and]
    exact ih h.2

theorem recordGet_set {α : Type} (m : List (String × α)) (k : String) (v : α) (k' : String) :
    recordGet (recordSet m k v) k' = if k' = k then some v else recordGet m k' := by
  induction m with
  | nil =>
    simp only [recordSet, recordGet]
    by_cases h : k' = k
    · subst h; simp
    · rw [if_neg (fun h' : k = k' => h h'.symm), if_neg h]
  | cons p tl ih =>
    obtain ⟨k1, v1⟩ := p
    by_cases h1 : k1 = k
    · subst h1
      simp only [recordSet, if_pos rfl, recordGet]
      by_cases h2 : k1 = k'
      · subst h2; simp
      · rw [if_neg h2, if_neg (fun h' : k' = k1 => h2 h'.symm), if_neg h2]
    · simp only [recordSet, if_neg h1, recordGet]
      by_cases h2 : k1 = k'
      · subst h2
        rw [if_pos rfl, if_pos rfl, if_neg (fun h' : k1 = k => h1 h')]
      · rw [if_neg h2, if_neg h2, ih]

theorem saveLogs_logs (st st' : LogState) (h : _saveLogs st = .ok st') :
    st'.logs = st.logs := by
  unfold _saveLogs at h
  cases hs : serVal (encodeLogs st.logs) with
  | none => rw [hs] at h; cases h
  | some cs => rw [hs] at h; cases h; rfl

theorem addLog_snd_logs (st : LogState) (now : Nat) (rand : String) (message : String)
    (level : LogLevel) (category : LogCategory) (details : Option (List (String × JSValue))) :
    (addLog st now rand message level category details).2.logs =
      _trimLogs (recordSet st.logs (_generateId now rand)
        (mkEntry (_generateId now rand) now message level category details)) := by
  simp only [addLog]
  generalize hs : _saveLogs { st with
      logs := _trimLogs (recordSet st.logs (_generateId now rand)
        (mkEntry (_generateId now rand) now message level category details)) } = r
  cases r with
  | ok st2 => simpa using saveLogs_logs _ _ hs
  | error e => rfl

theorem getLogs_perm (st : LogState) : (getLogs st).Perm (st.logs.map Prod.snd) :=
  List.perm_insertionSort entryLe (st.logs.map Prod.snd)

theorem filterExcept_of_true {ε α : Type} (p : α → Except ε Bool) (l : List α)
    (h : ∀ x ∈ l, p x = .ok true) : filterExcept p l = .ok l := by
  induction l with
  | nil => rfl
  | cons x tl ih =>
    have hx := h x (List.mem_cons_self x tl)
    have htl := ih (fun y hy => h y (List.mem_cons_of_mem x hy))
    simp [filterExcept, hx, htl]

/-! ## C6: sort order of getLogs -/

/-- C6: for every store state, `getLogs()` returns all resident entries
(a permutation of the map's values) in timestamp-non-increasing order
(most recent first). -/
theorem getLogs_sorted_desc (st : LogState) :
    (getLogs st).Pairwise (fun a b => b.timestamp ≤ a.timestamp) ∧
    (getLogs st).Perm (st.logs.map Prod.snd) :=
  ⟨List.sorted_insertionSort entryLe (st.logs.map Prod.snd), getLogs_perm st⟩

/-! ## C3: the debug level filter matches everything -/

/-- C3: filtering with level `debug` (and no category or search filter)
returns every resident entry, whatever its actual level: the `debug` level
argument acts as match-all. -/
theorem getFilteredLogs_debug_matches_all (st : LogState) :
    getFilteredLogs st (some .debug) none none = .ok (getLogs st) ∧
    (getLogs st).Perm (st.logs.map Prod.snd) := by
  refine ⟨?_, getLogs_perm st⟩
  unfold getFilteredLogs
  exact filterExcept_of_true _ _ (fun log _ => by simp [filterPred, matchesSearch])

/-! ## C10: read operations do not change the store -/

/-- C10: `getLogs` and `getFilteredLogs` (with any arguments) are
side-effect free: the state a public call leaves behind — resident map,
cookie blob and `showLogs` flag alike — is the state it started from. -/
theorem read_ops_frame (st : LogState) (level : Option LogLevel)
    (category : Option LogCategory) (searchQuery : Option String) :
    (runOp .getLogs st).2 = st ∧
    (runOp (.getFilteredLogs level category searchQuery) st).2 = st :=
  ⟨rfl, rfl⟩

/-! ## C5: the search filter throws on an entry without details -/

/-- C5 (refuting evaluation): on a store holding one entry with no `details`
payload, a filtered query whose search string does not occur in the message
throws a `TypeError` (the code takes `JSON.stringify(undefined)`, which is
`undefined`, and calls `.toLowerCase()` on it) instead of returning the
filtered sequence the claim describes. -/
theorem getFilteredLogs_throws_on_absent_details :
    getFilteredLogs (addLog (initialState none) 5 "abc" "hello").2
      (some .info) (some .system) (some "zzz") = .error .typeError := rfl

/-! ## C2 and C9: the logAPIRequest / logDatabase helpers -/

theorem recordGet_apiDetails (det : Option (List (String × JSValue)))
    (endpoint method : String) (duration statusCode : Int) (now : Nat) (k : String) :
    recordGet (apiDetails det endpoint method duration statusCode now) k =
      if k = "endpoint" then some (.str endpoint)
      else if k = "method" then some (.str method)
      else if k = "duration" then some (.num duration)
      else if k = "statusCode" then some (.num statusCode)
      else if k = "timestamp" then some (.str (natString now))
      else recordGet (det.getD []) k := by
  simp only [apiDetails, recordSetAll, List.foldl_cons, List.foldl_nil]
  rw [recordGet_set, recordGet_set, recordGet_set, recordGet_set, recordGet_set]
  by_cases h1 : k = "endpoint" <;> by_cases h2 : k = "method" <;>
    by_cases h3 : k = "duration" <;> by_cases h4 : k = "statusCode" <;>
    by_cases h5 : k = "timestamp" <;> simp_all

theorem recordGet_dbDetails (det : Option (List (String × JSValue)))
    (operation : String) (success : Bool) (duration : Int) (now : Nat) (k : String) :
    recordGet (dbDetails det operation success duration now) k =
      if k = "operation" then some (.str operation)
      else if k = "success" then some (.bool success)
      else if k = "duration" then some (.num duration)
      else if k = "timestamp" then some (.str (natString now))
      else recordGet (det.getD []) k := by
  simp only [dbDetails, recordSetAll, List.foldl_cons, List.foldl_nil]
  rw [recordGet_set, recordGet_set, recordGet_set, recordGet_set]
  by_cases h1 : k = "operation" <;> by_cases h2 : k = "success" <;>
    by_cases h3 : k = "duration" <;> by_cases h4 : k = "timestamp" <;> simp_all

/-- When the store is below capacity and the generated id is fresh, the
entry `addLog` builds is resident at that id afterwards. -/
theorem addLog_resident (st : LogState) (now : Nat) (rand : String) (message : String)
    (level : LogLevel) (category : LogCategory) (details : Option (List (String × JSValue)))
    (hlen : st.logs.length < MAX_LOGS) (hfresh : _generateId now rand ∉ st.logs.map Prod.fst) :
    recordGet (addLog st now rand message level category details).2.logs (_generateId now rand) =
      some (mkEntry (_generateId now rand) now message level category details) := by
  rw [addLog_snd_logs, recordSet_of_not_mem _ _ _ hfresh, trimLogs_of_le _ (by simp; omega),
    ← recordSet_of_not_mem _ _ _ hfresh, recordGet_set, if_pos rfl]

/-- C2: `logAPIRequest(endpoint, method, durationMs, statusCode, details?)`
inserts an entry whose message is `"{method} {endpoint} - {statusCode}
({durationMs}ms)"`, whose level is `error` for status ≥ 400, `warning` for
status ≥ 300 and `info` otherwise, whose category is `api`, and whose
details payload is the caller's details merged with the `endpoint`,
`method`, `duration`, `statusCode` and `timestamp` keys; in particular
`logAPIRequest("/users", "GET", 120, 404)` yields message
`"GET /users - 404 (120ms)"`, level `error`, category `api` and
`details.statusCode = 404`. -/
theorem logAPIRequest_spec (st : LogState) (now : Nat) (rand : String)
    (endpoint method : String) (duration statusCode : Int)
    (details : Option (List (String × JSValue)))
    (hlen : st.logs.length < MAX_LOGS)
    (hfresh : _generateId now rand ∉ st.logs.map Prod.fst) :
    (∃ e : LogEntry,
      recordGet (logAPIRequest st now rand endpoint method duration statusCode details).2.logs
          (_generateId now rand) = some e ∧
      e.message = method ++ " " ++ endpoint ++ " - " ++ intString statusCode
        ++ " (" ++ intString duration ++ "ms)" ∧
      e.level = (if 400 ≤ statusCode then .error else if 300 ≤ statusCode then .warning else .info) ∧
      e.category = .api ∧
      ∃ d, e.details = some d ∧
        ∀ k : String, recordGet d k =
          if k = "endpoint" then some (.str endpoint)
          else if k = "method" then some (.str method)
          else if k = "duration" then some (.num duration)
          else if k = "statusCode" then some (.num statusCode)
          else if k = "timestamp" then some (.str (natString now))
          else recordGet (details.getD []) k) ∧
    ((recordGet (logAPIRequest (initialState none) 0 "r" "/users" "GET" 120 404 none).2.logs
        (_generateId 0 "r")).map LogEntry.message = some "GET /users - 404 (120ms)" ∧
     (recordGet (logAPIRequest (initialState none) 0 "r" "/users" "GET" 120 404 none).2.logs
        (_generateId 0 "r")).map LogEntry.level = some .error ∧
     (recordGet (logAPIRequest (initialState none) 0 "r" "/users" "GET" 120 404 none).2.logs
        (_generateId 0 "r")).map LogEntry.category = some .api ∧
     ((recordGet (logAPIRequest (initialState none) 0 "r" "/users" "GET" 120 404 none).2.logs
        (_generateId 0 "r")).bind LogEntry.details).bind
          (fun d => recordGet d "statusCode") = some (.num 404)) := by
  constructor
  · refine ⟨mkEntry (_generateId now rand) now (apiMessage endpoint method duration statusCode)
      (apiLevel statusCode) .api (some (apiDetails details endpoint method duration statusCode now)),
      ?_, rfl, rfl, rfl, apiDetails details endpoint method duration statusCode now, rfl,
      recordGet_apiDetails details endpoint method duration statusCode now⟩
    exact addLog_resident st now rand _ _ _ _ hlen hfresh
  · exact ⟨rfl, rfl, rfl, rfl⟩

/-- C2 witness: the specification instantiated at the documented example
call on an empty store. -/
theorem logAPIRequest_spec_witness :
    (initialState none).logs.length < MAX_LOGS ∧
    _generateId 0 "r" ∉ (initialState none).logs.map Prod.fst ∧
    ((∃ e : LogEntry,
      recordGet (logAPIRequest (initialState none) 0 "r" "/users" "GET" 120 404 none).2.logs
          (_generateId 0 "r") = some e ∧
      e.message = "GET" ++ " " ++ "/users" ++ " - " ++ intString 404
        ++ " (" ++ intString 120 ++ "ms)" ∧
      e.level = (if (400 : Int) ≤ 404 then .error else if (300 : Int) ≤ 404 then .warning else .info) ∧
      e.category = .api ∧
      ∃ d, e.details = some d ∧
        ∀ k : String, recordGet d k =
          if k = "endpoint" then some (.str "/users")
          else if k = "method" then some (.str "GET")
          else if k = "duration" then some (.num 120)
          else if k = "statusCode" then some (.num 404)
          else if k = "timestamp" then some (.str (natString 0))
          else recordGet ((none : Option (List (String × JSValue))).getD []) k) ∧
    ((recordGet (logAPIRequest (initialState none) 0 "r" "/users" "GET" 120 404 none).2.logs
        (_generateId 0 "r")).map LogEntry.message = some "GET /users - 404 (120ms)" ∧
     (recordGet (logAPIRequest (initialState none) 0 "r" "/users" "GET" 120 404 none).2.logs
        (_generateId 0 "r")).map LogEntry.level = some .error ∧
     (recordGet (logAPIRequest (initialState none) 0 "r" "/users" "GET" 120 404 none).2.logs
        (_generateId 0 "r")).map LogEntry.category = some .api ∧
     ((recordGet (logAPIRequest (initialState none) 0 "r" "/users" "GET" 120 404 none).2.logs
        (_generateId 0 "r")).bind LogEntry.details).bind
          (fun d => recordGet d "statusCode") = some (.num 404))) :=
  ⟨by decide, by simp [initialState],
    logAPIRequest_spec (initialState none) 0 "r" "/users" "GET" 120 404 none
      (by decide) (by simp [initialState])⟩

/-- C9 counterexample: for the documented call
`logAPIRequest("/users", "GET", 120, 404)` the created entry's top-level
`duration` and `statusCode` fields are not set — they are `none`, not the
supplied 120 and 404.  (`addLog` builds the entry without those interface
fields; the helpers record the numbers inside `details` instead.) -/
theorem logAPIRequest_top_level_fields_unset :
    ((recordGet (logAPIRequest (initialState none) 0 "r" "/users" "GET" 120 404 none).2.logs
        (_generateId 0 "r")).map LogEntry.duration = some none ∧
     (recordGet (logAPIRequest (initialState none) 0 "r" "/users" "GET" 120 404 none).2.logs
        (_generateId 0 "r")).map LogEntry.statusCode = some none) ∧
    ((recordGet (logAPIRequest (initialState none) 0 "r" "/users" "GET" 120 404 none).2.logs
        (_generateId 0 "r")).map LogEntry.duration ≠ some (some 120) ∧
     (recordGet (logAPIRequest (initialState none) 0 "r" "/users" "GET" 120 404 none).2.logs
        (_generateId 0 "r")).map LogEntry.statusCode ≠ some (some 404)) :=
  ⟨⟨rfl, rfl⟩, by decide, by decide⟩

/-- C9 amended: `logAPIRequest` records the supplied duration and status
code in the entry's `details` payload (`details.duration`,
`details.statusCode`), and `logDatabase` records the duration in
`details.duration`; the optional top-level `duration` and `statusCode`
fields of the entry remain unset. -/
theorem api_db_numeric_fields_in_details (st : LogState) (now : Nat) (rand : String)
    (endpoint method operation : String) (success : Bool) (duration statusCode : Int)
    (details : Option (List (String × JSValue)))
    (hlen : st.logs.length < MAX_LOGS)
    (hfresh : _generateId now rand ∉ st.logs.map Prod.fst) :
    (∃ e : LogEntry,
      recordGet (logAPIRequest st now rand endpoint method duration statusCode details).2.logs
          (_generateId now rand) = some e ∧
      e.duration = none ∧ e.statusCode = none ∧
      ∃ d, e.details = some d ∧ recordGet d "duration" = some (.num duration) ∧
        recordGet d "statusCode" = some (.num statusCode)) ∧
    (∃ e : LogEntry,
      recordGet (logDatabase st now rand operation success duration details).2.logs
          (_generateId now rand) = some e ∧
      e.duration = none ∧
      ∃ d, e.details = some d ∧ recordGet d "duration" = some (.num duration)) := by
  constructor
  · refine ⟨mkEntry (_generateId now rand) now (apiMessage endpoint method duration statusCode)
      (apiLevel statusCode) .api (some (apiDetails details endpoint method duration statusCode now)),
      addLog_resident st now rand _ _ _ _ hlen hfresh, rfl, rfl,
      apiDetails details endpoint method duration statusCode now, rfl, ?_, ?_⟩
    · rw [recordGet_apiDetails]
      simp
    · rw [recordGet_apiDetails]
      simp
  · refine ⟨mkEntry (_generateId now rand) now
      ("DB " ++ operation ++ " - " ++ (if success then "Success" else "Failed")
        ++ " (" ++ intString duration ++ "ms)")
      (if success then .info else .error) .database
      (some (dbDetails details operation success duration now)),
      addLog_resident st now rand _ _ _ _ hlen hfresh, rfl,
      dbDetails details operation success duration now, rfl, ?_⟩
    rw [recordGet_dbDetails]
    simp

/-- C9 witness: the amended statement at a concrete API call and DB call on
an empty store. -/
theorem api_db_numeric_fields_in_details_witness :
    (initialState none).logs.length < MAX_LOGS ∧
    _generateId 0 "r" ∉ (initialState none).logs.map Prod.fst ∧
    ((∃ e : LogEntry,
      recordGet (logAPIRequest (initialState none) 0 "r" "/users" "GET" 120 404 none).2.logs
          (_generateId 0 "r") = some e ∧
      e.duration = none ∧ e.statusCode = none ∧
      ∃ d, e.details = some d ∧ recordGet d "duration" = some (.num 120) ∧
        recordGet d "statusCode" = some (.num 404)) ∧
    (∃ e : LogEntry,
      recordGet (logDatabase (initialState none) 0 "r" "insert" true 30 none).2.logs
          (_generateId 0 "r") = some e ∧
      e.duration = none ∧
      ∃ d, e.details = some d ∧ recordGet d "duration" = some (.num 30))) :=
  ⟨by decide, by simp [initialState],
    api_db_numeric_fields_in_details (initialState none) 0 "r" "/users" "GET" "insert"
      true 120 404 none (by decide) (by simp [initialState]) |>.imp id
      (fun h => by
        simpa using api_db_numeric_fields_in_details (initialState none) 0 "r" "/users" "GET"
          "insert" true 30 404 none (by decide) (by simp [initialState]) |>.2)⟩

/-! ## C4: addLog and unserializable details -/

/-- C4 counterexample: with a `details` payload containing a reference
cycle, `addLog` does not complete normally — `JSON.stringify` inside
`_saveLogs` throws and the `TypeError` propagates to the caller instead of
the generated id being returned. -/
theorem addLog_throws_on_cyclic_details :
    (addLog (initialState none) 0 "r" "m" .info .system (some [("self", .cyclic)])).1
      = .error .typeError ∧
    (addLog (initialState none) 0 "r" "m" .info .system (some [("self", .cyclic)])).1
      ≠ .ok (_generateId 0 "r") :=
  ⟨rfl, fun hc => Except.noConfusion
    ((rfl : (addLog (initialState none) 0 "r" "m" .info .system
        (some [("self", .cyclic)])).1 = .error .typeError).symm.trans hc)⟩

/-- C4 amended: `addLog` completes without throwing and returns the
generated id whenever the updated map serializes — in particular for every
serialization-safe `details` payload; for a serialization-unsafe payload
(such as a circular structure) the persistence write throws and the
exception propagates to the caller (the entry nevertheless stays in the
in-memory map). -/
theorem addLog_returns_id_when_serializable (st : LogState) (now : Nat) (rand : String)
    (message : String) (level : LogLevel) (category : LogCategory)
    (details : Option (List (String × JSValue)))
    (h : (serVal (encodeLogs (_trimLogs (recordSet st.logs (_generateId now rand)
      (mkEntry (_generateId now rand) now message level category details))))).isSome = true) :
    (addLog st now rand message level category details).1 = .ok (_generateId now rand) ∧
    (addLog st now rand message level category details).2.logs =
      _trimLogs (recordSet st.logs (_generateId now rand)
        (mkEntry (_generateId now rand) now message level category details)) := by
  refine ⟨?_, addLog_snd_logs st now rand message level category details⟩
  simp only [addLog]
  rw [Option.isSome_iff_exists] at h
  obtain ⟨cs, hcs⟩ := h
  have hsave : _saveLogs { st with
      logs := _trimLogs (recordSet st.logs (_generateId now rand)
        (mkEntry (_generateId now rand) now message level category details)) } =
      .ok { st with
        logs := _trimLogs (recordSet st.logs (_generateId now rand)
          (mkEntry (_generateId now rand) now message level category details)),
        cookie := some (String.mk cs) } := by
    unfold _saveLogs
    simp only at hcs ⊢
    rw [hcs]
  rw [hsave]

/-- C4 witness: a serialization-safe call on the empty store returns the
generated id. -/
theorem addLog_returns_id_when_serializable_witness :
    (serVal (encodeLogs (_trimLogs (recordSet (initialState none).logs (_generateId 0 "r")
      (mkEntry (_generateId 0 "r") 0 "m" .info .system none))))).isSome = true ∧
    ((addLog (initialState none) 0 "r" "m" .info .system none).1 = .ok (_generateId 0 "r") ∧
     (addLog (initialState none) 0 "r" "m" .info .system none).2.logs =
       _trimLogs (recordSet (initialState none).logs (_generateId 0 "r")
         (mkEntry (_generateId 0 "r") 0 "m" .info .system none))) :=
  ⟨rfl, addLog_returns_id_when_serializable (initialState none) 0 "r" "m" .info .system none rfl⟩

/-! ## C7: load-time failure recovery -/

/-- C7: constructing the store never throws; when the persisted blob is
absent the store starts empty with no diagnostic — as it also does for a
present empty-string blob, which the truthiness guard `if (savedLogs)`
skips silently without attempting a parse — and when a present non-empty
blob fails to parse the store starts empty and the failure is reported to
the scoped diagnostic logger instead of propagating. -/
theorem loadLogs_failure_recovery (cookie : Option String)
    (h : ∀ s, cookie = some s → jsonParse s = none) :
    (_loadLogs cookie).1.logs = [] ∧ (_loadLogs cookie).1.showLogs = true ∧
    (∀ s, cookie = some s → s ≠ "" →
      (_loadLogs cookie).2 = ["Failed to parse logs from cookies:"]) ∧
    (∀ s, cookie = some s → s = "" → (_loadLogs cookie).2 = []) ∧
    (cookie = none → (_loadLogs cookie).2 = []) := by
  cases cookie with
  | none =>
    refine ⟨rfl, rfl, ?_, ?_, fun _ => rfl⟩
    · intro s hs
      cases hs
    · intro s hs
      cases hs
  | some s =>
    have hp := h s rfl
    by_cases hse : s = ""
    · subst hse
      refine ⟨rfl, rfl, ?_, ?_, ?_⟩
      · intro s' hs' hne
        cases hs'
        exact absurd rfl hne
      · intro s' hs' _
        cases hs'
        rfl
      · intro hn
        cases hn
    · refine ⟨?_, ?_, ?_, ?_, ?_⟩
      · simp [_loadLogs, hp, hse, initialState]
      · simp [_loadLogs, hp, hse, initialState]
      · intro s' hs' _
        cases hs'
        simp [_loadLogs, hp, hse]
      · intro s' hs' hse'
        cases hs'
        exact absurd hse' hse
      · intro hn
        cases hn

/-- C7 witness: a concrete present, non-empty, unparsable blob loads as the
empty store with the diagnostic reported. -/
theorem loadLogs_failure_recovery_witness :
    (∀ s, (some "not json" : Option String) = some s → jsonParse s = none) ∧
    ((_loadLogs (some "not json")).1.logs = [] ∧
     (_loadLogs (some "not json")).1.showLogs = true ∧
     (∀ s, (some "not json" : Option String) = some s → s ≠ "" →
       (_loadLogs (some "not json")).2 = ["Failed to parse logs from cookies:"]) ∧
     (∀ s, (some "not json" : Option String) = some s → s = "" →
       (_loadLogs (some "not json")).2 = []) ∧
     ((some "not json" : Option String) = none → (_loadLogs (some "not json")).2 = [])) :=
  ⟨fun s hs => by cases hs; rfl,
   loadLogs_failure_recovery (some "not json") (fun s hs => by cases hs; rfl)⟩

/-! ## C1: the capacity invariant -/

theorem capStep (logs : List (String × LogEntry)) (inserted : List LogEntry) (c : AddCall)
    (hlen : logs.length = min inserted.length MAX_LOGS)
    (hkey : ∀ p ∈ logs, p.1 = p.2.id)
    (hnd : (logs.map Prod.fst).Nodup)
    (hsplit : ∃ evicted, inserted.Perm (logs.map Prod.snd ++ evicted) ∧
      ∀ e ∈ logs.map Prod.snd, ∀ v ∈ evicted, v.timestamp ≤ e.timestamp)
    (hfresh : idOfCall c ∉ logs.map Prod.fst) :
    (_trimLogs (logs ++ [(idOfCall c, entryOfCall c)])).length
        = min (inserted.length + 1) MAX_LOGS ∧
    (∀ p ∈ _trimLogs (logs ++ [(idOfCall c, entryOfCall c)]), p.1 = p.2.id) ∧
    ((_trimLogs (logs ++ [(idOfCall c, entryOfCall c)])).map Prod.fst).Nodup ∧
    ∃ evicted, (inserted ++ [entryOfCall c]).Perm
        ((_trimLogs (logs ++ [(idOfCall c, entryOfCall c)])).map Prod.snd ++ evicted) ∧
      ∀ e ∈ (_trimLogs (logs ++ [(idOfCall c, entryOfCall c)])).map Prod.snd,
        ∀ v ∈ evicted, v.timestamp ≤ e.timestamp := by
  obtain ⟨evicted, hperm, hbound⟩ := hsplit
  set e := entryOfCall c with he
  set L := logs ++ [(idOfCall c, e)] with hL
  have hlenL : L.length = logs.length + 1 := by simp [hL]
  have hmapsnd : L.map Prod.snd = logs.map Prod.snd ++ [e] := by simp [hL]
  have hkeyL : ∀ p ∈ L, p.1 = p.2.id := by
    intro p hp
    rcases List.mem_append.mp hp with h | h
    · exact hkey p h
    · rw [List.mem_singleton.mp h]
      rfl
  have hndL : (L.map Prod.fst).Nodup := by
    rw [hL, List.map_append, List.nodup_append]
    refine ⟨hnd, List.nodup_singleton _, ?_⟩
    intro a ha hb
    simp only [List.map_cons, List.map_nil, List.mem_singleton] at hb
    subst hb
    exact hfresh ha
  by_cases hcap : MAX_LOGS < L.length
  · -- the insertion pushed the map over the bound: trim runs
    set S := List.insertionSort entryPairLe L with hS
    have hSperm : S.Perm L := List.perm_insertionSort _ _
    have hSsorted : S.Sorted entryPairLe := List.sorted_insertionSort _ _
    have hSlen : S.length = L.length := hSperm.length_eq
    have htrim : _trimLogs L = S.take MAX_LOGS := by
      unfold _trimLogs
      rw [if_pos hcap, hS]
    have hlen' : (S.take MAX_LOGS).length = MAX_LOGS := by
      rw [List.length_take]
      omega
    have htd : S.take MAX_LOGS ++ S.drop MAX_LOGS = S := List.take_append_drop _ _
    have hSnodup : (S.map Prod.fst).Nodup := (hSperm.map Prod.fst).nodup_iff.mpr hndL
    refine ⟨by rw [htrim, hlen']; omega, ?_, ?_, ?_⟩
    · intro p hp
      rw [htrim] at hp
      exact hkeyL p (hSperm.mem_iff.mp (List.mem_of_mem_take hp))
    · rw [htrim, List.map_take]
      exact hSnodup.sublist (List.take_sublist _ _)
    · refine ⟨(S.drop MAX_LOGS).map Prod.snd ++ evicted, ?_, ?_⟩
      · have h1 : (inserted ++ [e]).Perm ((logs.map Prod.snd ++ evicted) ++ [e]) :=
          hperm.append_right [e]
        have h2 : ((logs.map Prod.snd ++ evicted) ++ [e]).Perm
            ((logs.map Prod.snd ++ [e]) ++ evicted) := by
          rw [List.append_assoc, List.append_assoc]
          exact List.Perm.append_left _ List.perm_append_comm
        have h3 : ((logs.map Prod.snd ++ [e]) ++ evicted).Perm (S.map Prod.snd ++ evicted) := by
          rw [← hmapsnd]
          exact ((hSperm.map Prod.snd).symm).append_right evicted
        have h4 : S.map Prod.snd ++ evicted =
            (_trimLogs L).map Prod.snd ++ ((S.drop MAX_LOGS).map Prod.snd ++ evicted) := by
          rw [htrim, ← List.append_assoc, ← List.map_append, htd]
        exact ((h1.trans h2).trans h3).trans (List.Perm.of_eq h4)
      · intro x hx v hv
        rw [htrim] at hx
        obtain ⟨p, hpmem, hpx⟩ := List.mem_map.mp hx
        subst hpx
        rcases List.mem_append.mp hv with hvd | hvev
        · obtain ⟨q, hqmem, hqv⟩ := List.mem_map.mp hvd
          subst hqv
          exact hSsorted.rel_of_mem_take_of_mem_drop hpmem hqmem
        · have hpL : p ∈ L := hSperm.mem_iff.mp (List.mem_of_mem_take hpmem)
          rcases List.mem_append.mp hpL with hpo | hpn
          · exact hbound p.2 (List.mem_map_of_mem Prod.snd hpo) v hvev
          · have hpe : p = (idOfCall c, e) := List.mem_singleton.mp hpn
            have hdne : S.drop MAX_LOGS ≠ [] := by
              intro hnil
              have := congrArg List.length hnil
              rw [List.length_drop] at this
              simp at this
              omega
            obtain ⟨d, hd⟩ := List.exists_mem_of_ne_nil _ hdne
            have hdL : d ∈ L := hSperm.mem_iff.mp (List.mem_of_mem_drop hd)
            have hrel : d.2.timestamp ≤ p.2.timestamp :=
              hSsorted.rel_of_mem_take_of_mem_drop hpmem hd
            rcases List.mem_append.mp hdL with hdo | hdn
            · have h1 : v.timestamp ≤ d.2.timestamp :=
                hbound d.2 (List.mem_map_of_mem Prod.snd hdo) v hvev
              exact le_trans h1 hrel
            · exfalso
              have hde : d = (idOfCall c, e) := List.mem_singleton.mp hdn
              have hm1 : idOfCall c ∈ (S.take MAX_LOGS).map Prod.fst := by
                simpa [hpe] using List.mem_map_of_mem Prod.fst hpmem
              have hm2 : idOfCall c ∈ (S.drop MAX_LOGS).map Prod.fst := by
                simpa [hde] using List.mem_map_of_mem Prod.fst hd
              rw [← htd, List.map_append, List.nodup_append] at hSnodup
              exact hSnodup.2.2 hm1 hm2
  · -- still within the bound: no trim, and nothing was ever evicted
    have htrim : _trimLogs L = L := trimLogs_of_le L (by omega)
    have hev : evicted = [] := by
      have h1 := hperm.length_eq
      rw [List.length_append, List.length_map] at h1
      have : evicted.length = 0 := by omega
      exact List.length_eq_zero.mp this
    subst hev
    refine ⟨by rw [htrim]; omega, by rw [htrim]; exact hkeyL, by rw [htrim]; exact hndL,
      [], ?_, ?_⟩
    · rw [htrim, hmapsnd, List.append_nil]
      rw [List.append_nil] at hperm
      exact hperm.append_right [e]
    · intro x _ v hv
      exact absurd hv (List.not_mem_nil v)

theorem addLogState_inv (st : LogState) (c : AddCall) (inserted : List LogEntry)
    (hInv : CapInv inserted st) (hfresh : idOfCall c ∉ st.logs.map Prod.fst) :
    CapInv (inserted ++ [entryOfCall c]) (addLogState st c) := by
  obtain ⟨hlen, hkey, hnd, hsplit⟩ := hInv
  have hlogs : (addLogState st c).logs =
      _trimLogs (st.logs ++ [(idOfCall c, entryOfCall c)]) := by
    show (addLog st c.now c.rand c.message c.level c.category c.details).2.logs = _
    rw [addLog_snd_logs]
    congr 1
    exact recordSet_of_not_mem _ _ _ hfresh
  obtain ⟨h1, h2, h3, h4⟩ := capStep st.logs inserted c hlen hkey hnd hsplit hfresh
  refine ⟨?_, ?_, ?_, ?_⟩
  · rw [hlogs, List.length_append, List.length_cons, List.length_nil]
    simpa using h1
  · rw [hlogs]; exact h2
  · rw [hlogs]; exact h3
  · rw [hlogs]; exact h4

theorem runAddLogs_inv (calls : List AddCall) (st : LogState) (inserted : List LogEntry)
    (hInv : CapInv inserted st)
    (hnd : (inserted.map LogEntry.id ++ calls.map idOfCall).Nodup) :
    CapInv (inserted ++ calls.map entryOfCall) (runAddLogs st calls) := by
  induction calls generalizing st inserted with
  | nil => simpa [runAddLogs] using hInv
  | cons c tl ih =>
    have hdisj := (List.nodup_append.mp hnd).2.2
    have hfresh : idOfCall c ∉ st.logs.map Prod.fst := by
      intro hmem
      obtain ⟨p, hp, hp1⟩ := List.mem_map.mp hmem
      obtain ⟨evicted, hperm, _⟩ := hInv.split
      have hpin : p.2 ∈ inserted :=
        hperm.mem_iff.mpr (List.mem_append.mpr (Or.inl (List.mem_map_of_mem Prod.snd hp)))
      have hin : idOfCall c ∈ inserted.map LogEntry.id := by
        rw [← hp1, hInv.keyId p hp]
        exact List.mem_map_of_mem LogEntry.id hpin
      exact hdisj hin (by simp)
    have hstep := addLogState_inv st c inserted hInv hfresh
    have hnd' : ((inserted ++ [entryOfCall c]).map LogEntry.id ++ tl.map idOfCall).Nodup := by
      have heq : (inserted ++ [entryOfCall c]).map LogEntry.id ++ tl.map idOfCall =
          inserted.map LogEntry.id ++ (c :: tl).map idOfCall := by
        rw [List.map_append, List.append_assoc]
        rfl
      rw [heq]
      exact hnd
    have hrec := ih (addLogState st c) (inserted ++ [entryOfCall c]) hstep hnd'
    have hrun : runAddLogs st (c :: tl) = runAddLogs (addLogState st c) tl := rfl
    rw [hrun]
    have hins : inserted ++ (c :: tl).map entryOfCall =
        (inserted ++ [entryOfCall c]) ++ tl.map entryOfCall := by
      rw [List.append_assoc]
      rfl
    rw [hins]
    exact hrec

theorem capInv_init : CapInv [] (initialState none) := by
  refine ⟨by simp [initialState], ?_, by simp [initialState], [], ?_, ?_⟩
  · intro p hp
    exact absurd hp (List.not_mem_nil p)
  · simp [initialState]
  · intro x hx
    exact absurd hx (List.not_mem_nil x)

/-- C1: after any sequence of more than `MAX_LOGS = 1000` `addLog` calls
(with distinct generated ids, as the id scheme is designed to give), the
resident map holds exactly 1000 entries, and those entries are the 1000
most recent by timestamp among everything inserted: the inserted entries
split into the residents plus the evicted ones, and every evicted entry's
timestamp is at most every resident's.  Moreover, whenever a single
insertion pushes a map past `MAX_LOGS`, the trim keeps exactly `MAX_LOGS`
entries and evicts only entries at most as recent as every survivor
(oldest first). -/
theorem addLog_capacity_invariant (calls : List AddCall)
    (hN : MAX_LOGS < calls.length)
    (hids : (calls.map idOfCall).Nodup) :
    ((runAddLogs (initialState none) calls).logs.length = MAX_LOGS ∧
     ∃ evicted, (calls.map entryOfCall).Perm
         ((runAddLogs (initialState none) calls).logs.map Prod.snd ++ evicted) ∧
       ∀ e ∈ (runAddLogs (initialState none) calls).logs.map Prod.snd,
         ∀ v ∈ evicted, v.timestamp ≤ e.timestamp) ∧
    (∀ logs : List (String × LogEntry), MAX_LOGS < logs.length →
      (_trimLogs logs).length = MAX_LOGS ∧
      ∃ dropped, logs.Perm (_trimLogs logs ++ dropped) ∧
        ∀ p ∈ _trimLogs logs, ∀ q ∈ dropped, q.2.timestamp ≤ p.2.timestamp) := by
  have h := runAddLogs_inv calls (initialState none) [] capInv_init (by simpa using hids)
  refine ⟨⟨?_, ?_⟩, trimLogs_spec⟩
  · have hl := h.len
    rw [List.nil_append, List.length_map] at hl
    rw [hl]
    omega
  · have hs := h.split
    rwa [List.nil_append] at hs

theorem capacityWitnessCalls_length : MAX_LOGS < capacityWitnessCalls.length := by
  rw [capacityWitnessCalls, List.length_map, List.length_range]
  decide

theorem capacityWitnessCalls_nodup : (capacityWitnessCalls.map idOfCall).Nodup := by
  rw [capacityWitnessCalls, List.map_map]
  refine List.Nodup.map ?_ (List.nodup_range 1001)
  intro a b hab
  have hmk : ∀ l : List Char, (String.mk l).data = l := fun l => rfl
  have happ : ∀ s t : String, (s ++ t).data = s.data ++ t.data := fun s t => rfl
  have hd := congrArg String.data hab
  simp only [Function.comp, idOfCall, capWitnessCall, _generateId, natString, happ, hmk] at hd
  have hlen := congrArg List.length hd
  simp only [List.length_append, List.length_replicate] at hlen
  omega

/-- C1 witness: the capacity invariant applied to the concrete run of 1001
calls. -/
theorem addLog_capacity_invariant_witness :
    MAX_LOGS < capacityWitnessCalls.length ∧
    (capacityWitnessCalls.map idOfCall).Nodup ∧
    (((runAddLogs (initialState none) capacityWitnessCalls).logs.length = MAX_LOGS ∧
      ∃ evicted, (capacityWitnessCalls.map entryOfCall).Perm
          ((runAddLogs (initialState none) capacityWitnessCalls).logs.map Prod.snd ++ evicted) ∧
        ∀ e ∈ (runAddLogs (initialState none) capacityWitnessCalls).logs.map Prod.snd,
          ∀ v ∈ evicted, v.timestamp ≤ e.timestamp) ∧
     (∀ logs : List (String × LogEntry), MAX_LOGS < logs.length →
       (_trimLogs logs).length = MAX_LOGS ∧
       ∃ dropped, logs.Perm (_trimLogs logs ++ dropped) ∧
         ∀ p ∈ _trimLogs logs, ∀ q ∈ dropped, q.2.timestamp ≤ p.2.timestamp)) :=
  ⟨capacityWitnessCalls_length, capacityWitnessCalls_nodup,
    addLog_capacity_invariant capacityWitnessCalls
      capacityWitnessCalls_length capacityWitnessCalls_nodup⟩

/-! ## C8: parse/stringify round trip -/

theorem digitChar_isDigit (d : Nat) : isDigitChar (digitChar d) = true := by
  unfold digitChar
  split <;> decide

theorem digitToNat_digitChar (d : Nat) (h : d < 10) : digitToNat (digitChar d) = d := by
  interval_cases d <;> decide

theorem natCharsAux_digits : ∀ (f n : Nat), n < f → ∀ c ∈ natCharsAux f n, isDigitChar c = true := by
  intro f
  induction f with
  | zero => intro n h; omega
  | succ f ih =>
    intro n h c hc
    rw [natCharsAux] at hc
    by_cases h10 : n < 10
    · rw [if_pos h10] at hc
      rw [List.mem_singleton.mp hc]
      exact digitChar_isDigit n
    · rw [if_neg h10] at hc
      rcases List.mem_append.mp hc with h1 | h1
      · exact ih (n / 10) (by omega) c h1
      · rw [List.mem_singleton.mp h1]
        exact digitChar_isDigit _

theorem digitsToNat_append (ds : List Char) (c : Char) :
    digitsToNat (ds ++ [c]) = digitsToNat ds * 10 + digitToNat c := by
  unfold digitsToNat
  rw [List.foldl_append]
  rfl

theorem digitsToNat_natCharsAux : ∀ (f n : Nat), n < f → digitsToNat (natCharsAux f n) = n := by
  intro f
  induction f with
  | zero => intro n h; omega
  | succ f ih =>
    intro n h
    rw [natCharsAux]
    by_cases h10 : n < 10
    · rw [if_pos h10]
      have hd := digitToNat_digitChar n h10
      simp only [digitsToNat, List.foldl_cons, List.foldl_nil]
      omega
    · rw [if_neg h10, digitsToNat_append, ih (n / 10) (by omega),
        digitToNat_digitChar (n % 10) (by omega)]
      omega

theorem natChars_digits (n : Nat) : ∀ c ∈ natChars n, isDigitChar c = true :=
  natCharsAux_digits (n + 1) n (by omega)

theorem digitsToNat_natChars (n : Nat) : digitsToNat (natChars n) = n :=
  digitsToNat_natCharsAux (n + 1) n (by omega)

theorem natChars_ne_nil (n : Nat) : natChars n ≠ [] := by
  rw [natChars, natCharsAux]
  by_cases h10 : n < 10
  · rw [if_pos h10]
    simp
  · rw [if_neg h10]
    simp

theorem takeDigits_append (ds rest : List Char) (hds : ∀ c ∈ ds, isDigitChar c = true)
    (hrest : boundaryB rest = true) : takeDigits (ds ++ rest) = (ds, rest) := by
  induction ds with
  | nil =>
    rw [List.nil_append]
    cases rest with
    | nil => rfl
    | cons c tl =>
      simp only [boundaryB, Bool.not_eq_true'] at hrest
      unfold takeDigits
      rw [if_neg (by rw [hrest]; exact Bool.false_ne_true)]
  | cons c tl ih =>
    rw [List.cons_append]
    unfold takeDigits
    rw [if_pos (hds c (List.mem_cons_self c tl))]
    rw [ih (fun x hx => hds x (List.mem_cons_of_mem c hx))]

theorem isDigit_ne_markers (c : Char) (h : isDigitChar c = true) :
    c ≠ 'n' ∧ c ≠ 't' ∧ c ≠ 'f' ∧ c ≠ '"' ∧ c ≠ '-' ∧ c ≠ '[' ∧ c ≠ '\x7b' ∧
    c ≠ ']' ∧ c ≠ '\x7d' ∧ c ≠ ',' ∧ c ≠ ':' := by
  refine ⟨?_, ?_, ?_, ?_, ?_, ?_, ?_, ?_, ?_, ?_, ?_⟩ <;>
    · intro hc
      rw [hc] at h
      exact absurd h (by decide)

theorem parseStrChars_escChars (l rest : List Char) :
    parseStrChars (escChars l ++ '"' :: rest) = some (l, rest) := by
  induction l with
  | nil =>
    show parseStrChars ('"' :: rest) = some ([], rest)
    unfold parseStrChars
    rw [if_pos rfl]
  | cons c tl ih =>
    by_cases hc : c = '"' ∨ c = '\\'
    · show parseStrChars ((if c = '"' ∨ c = '\\' then '\\' :: c :: escChars tl
        else c :: escChars tl) ++ '"' :: rest) = _
      rw [if_pos hc, List.cons_append, List.cons_append]
      unfold parseStrChars
      rw [if_neg (by decide), if_pos rfl]
      show Option.map (fun p => (c :: p.1, p.2)) (parseStrChars (escChars tl ++ '"' :: rest))
        = some (c :: tl, rest)
      rw [ih]
      rfl
    · show parseStrChars ((if c = '"' ∨ c = '\\' then '\\' :: c :: escChars tl
        else c :: escChars tl) ++ '"' :: rest) = _
      push_neg at hc
      rw [if_neg (by tauto), List.cons_append]
      unfold parseStrChars
      rw [if_neg hc.1, if_neg hc.2, ih]
      rfl

theorem string_mk_data (s : String) : String.mk s.data = s := rfl

theorem serVal_head (v : JSValue) (cs : List Char) (h : serVal v = some cs) :
    ∃ c tl, cs = c :: tl ∧ c ≠ ']' ∧ c ≠ '\x7d' := by
  cases v with
  | null =>
    have hcs : cs = ['n', 'u', 'l', 'l'] := by simpa [serVal] using h.symm
    exact ⟨'n', ['u', 'l', 'l'], hcs, by decide, by decide⟩
  | bool b =>
    cases b with
    | true =>
      have hcs : cs = ['t', 'r', 'u', 'e'] := by simpa [serVal] using h.symm
      exact ⟨'t', ['r', 'u', 'e'], hcs, by decide, by decide⟩
    | false =>
      have hcs : cs = ['f', 'a', 'l', 's', 'e'] := by simpa [serVal] using h.symm
      exact ⟨'f', ['a', 'l', 's', 'e'], hcs, by decide, by decide⟩
  | num n =>
    cases n with
    | ofNat m =>
      have hcs : cs = natChars m := by simpa [serVal, intChars] using h.symm
      obtain ⟨c, tl, hct⟩ := List.exists_cons_of_ne_nil (natChars_ne_nil m)
      have hd : isDigitChar c = true :=
        natChars_digits m c (by rw [hct]; exact List.mem_cons_self c tl)
      obtain ⟨-, -, -, -, -, -, -, h1, h2, -, -⟩ := isDigit_ne_markers c hd
      exact ⟨c, tl, by rw [hcs, hct], h1, h2⟩
    | negSucc m =>
      have hcs : cs = '-' :: natChars (m + 1) := by simpa [serVal, intChars] using h.symm
      exact ⟨'-', natChars (m + 1), hcs, by decide, by decide⟩
  | str s =>
    have hcs : cs = '"' :: (escChars s.data ++ ['"']) := by simpa [serVal] using h.symm
    exact ⟨'"', escChars s.data ++ ['"'], hcs, by decide, by decide⟩
  | arr xs =>
    simp only [serVal, Option.map_eq_some'] at h
    obtain ⟨a, _, hcs⟩ := h
    exact ⟨'[', a, hcs.symm, by decide, by decide⟩
  | obj fs =>
    simp only [serVal, Option.map_eq_some'] at h
    obtain ⟨a, _, hcs⟩ := h
    exact ⟨'\x7b', a, hcs.symm, by decide, by decide⟩
  | cyclic => exact absurd h (by simp [serVal])

theorem jsval_sizeOf_pos (v : JSValue) : 0 < sizeOf v := by
  cases v <;> simp

theorem jslist_sizeOf_pos (xs : List JSValue) : 0 < sizeOf xs := by
  cases xs <;> simp

theorem jsobj_sizeOf_pos (ps : List (String × JSValue)) : 0 < sizeOf ps := by
  cases ps <;> simp

theorem serArr_decomp (x : JSValue) (xs : List JSValue) (cs : List Char)
    (h : serArr (x :: xs) = some cs) :
    ∃ s1, serVal x = some s1 ∧
      ((xs = [] ∧ cs = s1 ++ [']']) ∨
       (∃ y ys cs2, xs = y :: ys ∧ serArr (y :: ys) = some cs2 ∧ cs = s1 ++ ',' :: cs2)) := by
  cases xs with
  | nil =>
    simp only [serArr, Option.map_eq_some'] at h
    obtain ⟨s1, hs1, hcs⟩ := h
    exact ⟨s1, hs1, Or.inl ⟨rfl, hcs.symm⟩⟩
  | cons y ys =>
    cases hsx : serVal x with
    | none => simp [serArr, hsx] at h
    | some s1 =>
      cases hsr : serArr (y :: ys) with
      | none => simp [serArr, hsx, hsr] at h
      | some cs2 =>
        have hcs : cs = s1 ++ ',' :: cs2 := by simpa [serArr, hsx, hsr] using h.symm
        exact ⟨s1, rfl, Or.inr ⟨y, ys, cs2, rfl, hsr, hcs⟩⟩

theorem serObj_decomp (k : String) (v : JSValue) (ps : List (String × JSValue)) (cs : List Char)
    (h : serObj ((k, v) :: ps) = some cs) :
    ∃ sv, serVal v = some sv ∧
      ((ps = [] ∧ cs = '"' :: (escChars k.data ++ '"' :: ':' :: (sv ++ ['\x7d']))) ∨
       (∃ q qs cs2, ps = q :: qs ∧ serObj (q :: qs) = some cs2 ∧
         cs = '"' :: (escChars k.data ++ '"' :: ':' :: (sv ++ ',' :: cs2)))) := by
  cases ps with
  | nil =>
    simp only [serObj, Option.map_eq_some'] at h
    obtain ⟨sv, hsv, hcs⟩ := h
    refine ⟨sv, hsv, Or.inl ⟨rfl, ?_⟩⟩
    rw [← hcs]
    simp [List.append_assoc]
  | cons q qs =>
    cases hsv : serVal v with
    | none => simp [serObj, hsv] at h
    | some sv =>
      cases hsr : serObj (q :: qs) with
      | none => simp [serObj, hsv, hsr] at h
      | some cs2 =>
        refine ⟨sv, rfl, Or.inr ⟨q, qs, cs2, rfl, hsr, ?_⟩⟩
        have hcs : cs = ('"' :: escChars k.data ++ '"' :: ':' :: sv) ++ ',' :: cs2 := by
          simpa [serObj, hsv, hsr] using h.symm
        rw [hcs]
        simp [List.append_assoc]


/-- The round trip at the heart of C8: everything `serVal` emits, `parseVal`
parses back to the same value, consuming exactly the emitted characters.
Proved by strong induction on the size of the value, jointly for values,
array tails and object tails. -/
theorem roundTrip_main : ∀ N : Nat,
    (∀ (v : JSValue) (cs rest : List Char) (f : Nat), sizeOf v ≤ N →
      serVal v = some cs → cs.length < f → boundaryB rest = true →
      parseVal f (cs ++ rest) = some (v, rest)) ∧
    (∀ (x : JSValue) (xs : List JSValue) (cs rest : List Char) (f : Nat),
      sizeOf x + sizeOf xs ≤ N →
      serArr (x :: xs) = some cs → cs.length < f →
      parseArrItems f (cs ++ rest) = some (x :: xs, rest)) ∧
    (∀ (k : String) (v : JSValue) (ps : List (String × JSValue)) (cs rest : List Char)
      (f : Nat), sizeOf v + sizeOf ps ≤ N →
      serObj ((k, v) :: ps) = some cs → cs.length < f →
      parseObjItems f (cs ++ rest) = some ((k, v) :: ps, rest)) := by
  intro N
  induction N with
  | zero =>
    refine ⟨?_, ?_, ?_⟩
    · intro v cs rest f hs
      exact absurd hs (by have := jsval_sizeOf_pos v; omega)
    · intro x xs cs rest f hs
      exact absurd hs (by have := jsval_sizeOf_pos x; have := jslist_sizeOf_pos xs; omega)
    · intro k v ps cs rest f hs
      exact absurd hs (by have := jsval_sizeOf_pos v; have := jsobj_sizeOf_pos ps; omega)
  | succ N ih =>
    obtain ⟨ihv, iha, iho⟩ := ih
    refine ⟨?_, ?_, ?_⟩
    · -- values
      intro v cs rest f hsize hser hfuel hb
      obtain ⟨f1, rfl⟩ : ∃ f1, f = f1 + 1 := ⟨f - 1, by omega⟩
      cases v with
      | null =>
        have hcs : cs = ['n', 'u', 'l', 'l'] := by simpa [serVal] using hser.symm
        subst hcs
        rfl
      | bool b =>
        cases b with
        | true =>
          have hcs : cs = ['t', 'r', 'u', 'e'] := by simpa [serVal] using hser.symm
          subst hcs
          rfl
        | false =>
          have hcs : cs = ['f', 'a', 'l', 's', 'e'] := by simpa [serVal] using hser.symm
          subst hcs
          rfl
      | num n =>
        cases n with
        | ofNat m =>
          have hcs : cs = natChars m := by simpa [serVal, intChars] using hser.symm
          subst hcs
          obtain ⟨c, tl, hct⟩ := List.exists_cons_of_ne_nil (natChars_ne_nil m)
          have hd : isDigitChar c = true :=
            natChars_digits m c (by rw [hct]; exact List.mem_cons_self c tl)
          obtain ⟨h1, h2, h3, h4, h5, -, -, -, -, -, -⟩ := isDigit_ne_markers c hd
          rw [hct, List.cons_append]
          simp only [parseVal]
          rw [if_neg h1, if_neg h2, if_neg h3, if_neg h4, if_neg h5, if_pos hd,
            show c :: (tl ++ rest) = (c :: tl) ++ rest from rfl, ← hct,
            takeDigits_append (natChars m) rest (natChars_digits m) hb]
          simp [digitsToNat_natChars]
        | negSucc m =>
          have hcs : cs = '-' :: natChars (m + 1) := by simpa [serVal, intChars] using hser.symm
          subst hcs
          obtain ⟨c, tl, hct⟩ := List.exists_cons_of_ne_nil (natChars_ne_nil (m + 1))
          have hd : isDigitChar c = true :=
            natChars_digits (m + 1) c (by rw [hct]; exact List.mem_cons_self c tl)
          rw [List.cons_append, hct, List.cons_append]
          have hstep : parseVal (f1 + 1) ('-' :: c :: (tl ++ rest)) =
              (if isDigitChar c then
                some (JSValue.num (-(digitsToNat (takeDigits (c :: (tl ++ rest))).1 : Int)),
                  (takeDigits (c :: (tl ++ rest))).2)
              else none) := rfl
          rw [hstep, if_pos hd,
            show c :: (tl ++ rest) = (c :: tl) ++ rest from rfl, ← hct,
            takeDigits_append (natChars (m + 1)) rest (natChars_digits (m + 1)) hb]
          have hneg : (-(digitsToNat (natChars (m + 1)) : Int)) = Int.negSucc m := by
            rw [digitsToNat_natChars, Int.negSucc_eq]
            push_cast
            ring
          rw [hneg]
      | str s =>
        have hcs : cs = '"' :: (escChars s.data ++ ['"']) := by simpa [serVal] using hser.symm
        subst hcs
        rw [List.cons_append, List.append_assoc, List.singleton_append]
        have hstep : parseVal (f1 + 1) ('"' :: (escChars s.data ++ '"' :: rest)) =
            (parseStrChars (escChars s.data ++ '"' :: rest)).map
              (fun p => (JSValue.str (String.mk p.1), p.2)) := rfl
        rw [hstep, parseStrChars_escChars]
        simp [string_mk_data]
      | arr xs =>
        simp only [serVal, Option.map_eq_some'] at hser
        obtain ⟨cs1, hser1, hcs⟩ := hser
        rw [← hcs, List.cons_append]
        cases xs with
        | nil =>
          have hcs1 : cs1 = [']'] := by simpa [serArr] using hser1.symm
          subst hcs1
          rfl
        | cons y ys =>
          obtain ⟨s1, hs1, hshape⟩ := serArr_decomp y ys cs1 hser1
          obtain ⟨c0, tl0, hct0, hne1, -⟩ := serVal_head y s1 hs1
          have hcs1head : ∃ tl1, cs1 = c0 :: tl1 := by
            rcases hshape with ⟨-, hcse⟩ | ⟨y', ys', cs2, -, -, hcse⟩ <;>
              exact ⟨_, by rw [hcse, hct0]; rfl⟩
          obtain ⟨tl1, hct1⟩ := hcs1head
          have hstep : parseVal (f1 + 1) ('[' :: (cs1 ++ rest)) =
              (match cs1 ++ rest with
                | ']' :: r => some (JSValue.arr [], r)
                | _ =>
                  match parseArrItems f1 (cs1 ++ rest) with
                  | some (xs, r) => some (JSValue.arr xs, r)
                  | none => none) := rfl
          rw [hstep, hct1, List.cons_append]
          split
          next r heq =>
            injection heq with hh1 hh2
            exact absurd hh1 hne1
          next =>
            rw [← List.cons_append, ← hct1,
              iha y ys cs1 rest f1
                (by simp at hsize; omega)
                hser1
                (by rw [← hcs] at hfuel; simp at hfuel; omega)]
      | obj fs =>
        simp only [serVal, Option.map_eq_some'] at hser
        obtain ⟨cs1, hser1, hcs⟩ := hser
        rw [← hcs, List.cons_append]
        cases fs with
        | nil =>
          have hcs1 : cs1 = ['\x7d'] := by simpa [serObj] using hser1.symm
          subst hcs1
          rfl
        | cons q qs =>
          obtain ⟨kq, vq⟩ := q
          obtain ⟨sv, hsv, hshape⟩ := serObj_decomp kq vq qs cs1 hser1
          have hcs1head : ∃ tl1, cs1 = '"' :: tl1 := by
            rcases hshape with ⟨-, hcse⟩ | ⟨q', qs', cs2, -, -, hcse⟩ <;> exact ⟨_, hcse⟩
          obtain ⟨tl1, hct1⟩ := hcs1head
          have hstep : parseVal (f1 + 1) ('\x7b' :: (cs1 ++ rest)) =
              (match cs1 ++ rest with
                | '\x7d' :: r => some (JSValue.obj [], r)
                | _ =>
                  match parseObjItems f1 (cs1 ++ rest) with
                  | some (ps, r) => some (JSValue.obj ps, r)
                  | none => none) := rfl
          rw [hstep, hct1, List.cons_append]
          split
          next r heq =>
            injection heq with hh1 hh2
            exact absurd hh1 (by decide)
          next =>
            rw [← List.cons_append, ← hct1,
              iho kq vq qs cs1 rest f1
                (by simp at hsize; omega)
                hser1
                (by rw [← hcs] at hfuel; simp at hfuel; omega)]
      | cyclic => exact absurd hser (by simp [serVal])
    · -- array tails
      intro x xs cs rest f hsize hser hfuel
      obtain ⟨s1, hs1, hshape⟩ := serArr_decomp x xs cs hser
      obtain ⟨c0, tl0, hct0, -, -⟩ := serVal_head x s1 hs1
      have hs1len : 1 ≤ s1.length := by rw [hct0]; simp
      obtain ⟨f1, rfl⟩ : ∃ f1, f = f1 + 1 := ⟨f - 1, by omega⟩
      simp only [parseArrItems]
      rcases hshape with ⟨rfl, hcs⟩ | ⟨y, ys, cs2, rfl, hser2, hcs⟩
      · subst hcs
        rw [List.append_assoc, List.singleton_append]
        rw [ihv x s1 (']' :: rest) f1
          (by simp at hsize; omega)
          hs1
          (by simp at hfuel; omega)
          (by rfl)]
        rfl
      · subst hcs
        rw [List.append_assoc, List.cons_append]
        rw [ihv x s1 (',' :: (cs2 ++ rest)) f1
          (by simp at hsize; have := jslist_sizeOf_pos ys; have := jsval_sizeOf_pos y; omega)
          hs1
          (by simp at hfuel; omega)
          (by rfl)]
        show (match parseArrItems f1 (cs2 ++ rest) with
          | some (xs, r2) => some (x :: xs, r2)
          | none => none) = some (x :: y :: ys, rest)
        rw [iha y ys cs2 rest f1
          (by simp at hsize; have := jsval_sizeOf_pos x; omega)
          hser2
          (by simp at hfuel; omega)]
    · -- object tails
      intro k v ps cs rest f hsize hser hfuel
      obtain ⟨sv, hsv, hshape⟩ := serObj_decomp k v ps cs hser
      obtain ⟨f1, rfl⟩ : ∃ f1, f = f1 + 1 := ⟨f - 1, by omega⟩
      simp only [parseObjItems]
      rcases hshape with ⟨rfl, hcs⟩ | ⟨q, qs, cs2, rfl, hser2, hcs⟩
      · subst hcs
        simp only [List.cons_append, List.append_assoc, List.singleton_append, List.nil_append]
        show (match parseStrChars (escChars k.data ++ '"' :: (':' :: (sv ++ '\x7d' :: rest))) with
          | none => none
          | some (k1, r) =>
            match r with
            | ':' :: r1 =>
              match parseVal f1 r1 with
              | none => none
              | some (v1, r2) =>
                match r2 with
                | ',' :: r3 =>
                  match parseObjItems f1 r3 with
                  | some (ps1, r4) => some ((String.mk k1, v1) :: ps1, r4)
                  | none => none
                | '\x7d' :: r3 => some ([(String.mk k1, v1)], r3)
                | _ => none
            | _ => none) = some ([(k, v)], rest)
        rw [parseStrChars_escChars]
        show (match parseVal f1 (sv ++ '\x7d' :: rest) with
          | none => none
          | some (v1, r2) =>
            match r2 with
            | ',' :: r3 =>
              match parseObjItems f1 r3 with
              | some (ps1, r4) => some ((String.mk k.data, v1) :: ps1, r4)
              | none => none
            | '\x7d' :: r3 => some ([(String.mk k.data, v1)], r3)
            | _ => none) = some ([(k, v)], rest)
        rw [ihv v sv ('\x7d' :: rest) f1
          (by simp at hsize; omega)
          hsv
          (by simp at hfuel; omega)
          (by rfl)]
        rw [string_mk_data]
        rfl
      · obtain ⟨kq, vq⟩ := q
        subst hcs
        have hvq := jsval_sizeOf_pos vq
        have hqs := jsobj_sizeOf_pos qs
        have hv := jsval_sizeOf_pos v
        simp only [List.cons_append, List.append_assoc, List.singleton_append, List.nil_append]
        show (match parseStrChars (escChars k.data ++ '"' :: (':' :: (sv ++ ',' :: (cs2 ++ rest)))) with
          | none => none
          | some (k1, r) =>
            match r with
            | ':' :: r1 =>
              match parseVal f1 r1 with
              | none => none
              | some (v1, r2) =>
                match r2 with
                | ',' :: r3 =>
                  match parseObjItems f1 r3 with
                  | some (ps1, r4) => some ((String.mk k1, v1) :: ps1, r4)
                  | none => none
                | '\x7d' :: r3 => some ([(String.mk k1, v1)], r3)
                | _ => none
            | _ => none) = some ((k, v) :: (kq, vq) :: qs, rest)
        rw [parseStrChars_escChars]
        show (match parseVal f1 (sv ++ ',' :: (cs2 ++ rest)) with
          | none => none
          | some (v1, r2) =>
            match r2 with
            | ',' :: r3 =>
              match parseObjItems f1 r3 with
              | some (ps1, r4) => some ((String.mk k.data, v1) :: ps1, r4)
              | none => none
            | '\x7d' :: r3 => some ([(String.mk k.data, v1)], r3)
            | _ => none) = some ((k, v) :: (kq, vq) :: qs, rest)
        rw [ihv v sv (',' :: (cs2 ++ rest)) f1
          (by simp at hsize; omega)
          hsv
          (by simp at hfuel; omega)
          (by rfl)]
        show (match parseObjItems f1 (cs2 ++ rest) with
          | some (ps1, r4) => some ((String.mk k.data, v) :: ps1, r4)
          | none => none) = some ((k, v) :: (kq, vq) :: qs, rest)
        rw [iho kq vq qs cs2 rest f1
          (by simp at hsize; omega)
          hser2
          (by simp at hfuel; omega)]

theorem jsonParse_serVal (v : JSValue) (cs : List Char) (h : serVal v = some cs) :
    jsonParse (String.mk cs) = some v := by
  have hp := (roundTrip_main (sizeOf v)).1 v cs [] (cs.length + 1) (le_refl _) h (by omega) rfl
  rw [List.append_nil] at hp
  unfold jsonParse
  have hdata : (String.mk cs).data = cs := rfl
  rw [hdata, hp]

theorem natOfString_natString (n : Nat) : natOfString (natString n) = some n := by
  obtain ⟨c, tl, hct⟩ := List.exists_cons_of_ne_nil (natChars_ne_nil n)
  have hall : (natChars n).all isDigitChar = true :=
    List.all_eq_true.mpr (natChars_digits n)
  unfold natOfString natString
  have hdata : (String.mk (natChars n)).data = natChars n := rfl
  rw [hdata, hct]
  show (if (c :: tl).all isDigitChar then some (digitsToNat (c :: tl)) else none) = some n
  rw [← hct, if_pos hall, digitsToNat_natChars]

theorem levelOfString_levelString (l : LogLevel) : levelOfString (levelString l) = some l := by
  cases l <;> decide

theorem categoryOfString_categoryString (c : LogCategory) :
    categoryOfString (categoryString c) = some c := by
  cases c <;> decide

theorem decodeEntry_encodeEntry (e : LogEntry) : decodeEntry (encodeEntry e) = some e := by
  obtain ⟨id, ts, lv, msg, det, cat, sub, dur, sc⟩ := e
  cases det <;> cases sub <;> cases dur <;> cases sc <;>
    simp [encodeEntry, decodeEntry, recordGet, natOfString_natString,
      levelOfString_levelString, categoryOfString_categoryString]

theorem decodeLogs_encodeLogs (logs : List (String × LogEntry)) :
    decodeLogs (encodeLogs logs) = some logs := by
  induction logs with
  | nil => rfl
  | cons p tl ih =>
    obtain ⟨k, e⟩ := p
    show decodeLogsList (((k, e) :: tl).map (fun p => (p.1, encodeEntry p.2))) =
      some ((k, e) :: tl)
    rw [List.map_cons]
    show (match decodeEntry (encodeEntry e) with
      | none => none
      | some e1 =>
        match decodeLogsList (tl.map (fun p => (p.1, encodeEntry p.2))) with
        | none => none
        | some r => some ((k, e1) :: r)) = some ((k, e) :: tl)
    rw [decodeEntry_encodeEntry]
    have ih1 : decodeLogsList (tl.map (fun p => (p.1, encodeEntry p.2))) = some tl := ih
    rw [ih1]

/-- C8: serializing the resident map as `_saveLogs` does (possible exactly
when every details payload is serialization-safe, which every blob-producing
run satisfies) and loading the unmodified blob into a fresh store as
`_loadLogs` does reproduces the identical resident mapping — the same ids
bound to entries with the same field values — with no diagnostic emitted. -/
theorem saveLogs_loadLogs_roundTrip (st : LogState) (cs : List Char)
    (h : serVal (encodeLogs st.logs) = some cs) :
    _saveLogs st = .ok { st with cookie := some (String.mk cs) } ∧
    (_loadLogs (some (String.mk cs))).1.logs = st.logs ∧
    (_loadLogs (some (String.mk cs))).2 = [] := by
  have hne : String.mk cs ≠ "" := by
    obtain ⟨c, tl, hct, -, -⟩ := serVal_head _ _ h
    rw [hct]
    intro heq
    exact absurd (congrArg String.data heq) (by simp)
  refine ⟨?_, ?_, ?_⟩
  · unfold _saveLogs
    rw [h]
  · simp only [_loadLogs]
    rw [if_neg hne, jsonParse_serVal _ _ h]
    simp [decodeLogs_encodeLogs]
  · simp only [_loadLogs]
    rw [if_neg hne, jsonParse_serVal _ _ h]

/-- C8 witness: a concrete store state built by the logging API serializes,
and loading the blob into a fresh store reproduces the resident mapping. -/
theorem saveLogs_loadLogs_roundTrip_witness :
    serVal (encodeLogs c8WitnessState.logs) = some c8WitnessBlob ∧
    (_saveLogs c8WitnessState =
        .ok { c8WitnessState with cookie := some (String.mk c8WitnessBlob) } ∧
     (_loadLogs (some (String.mk c8WitnessBlob))).1.logs = c8WitnessState.logs ∧
     (_loadLogs (some (String.mk c8WitnessBlob))).2 = []) :=
  ⟨rfl, saveLogs_loadLogs_roundTrip c8WitnessState c8WitnessBlob rfl⟩
